import Mathlib

/-!
Verification development for the `netlify-proxy` repository.

The subject is the Netlify edge function in `netlify/edge-functions/proxy.ts`:
a generic reverse proxy that reads `TARGET_URL`, `ALLOWED_HEADERS` and
`CUSTOM_HEADERS` from the environment, filters and synthesizes request
headers, forwards the request with manual redirect handling, rebuilds the
response headers (standard passthrough, `x-` passthrough, custom overrides,
CORS defaults) and rewrites same-origin `Location` headers.

Platform primitives (the WHATWG `URL` constructor, the `Headers` container,
`JSON.parse`, `Object.entries`, string coercion) are modelled explicitly
below; the handler itself is a direct translation of the source, with the
outbound `fetch` supplied as an oracle argument so that theorems can speak
about what is sent upstream and whether the network is consulted at all.
-/

namespace NetlifyProxy

/-! ## ASCII lowercasing, models JavaScript `String.prototype.toLowerCase`
for the ASCII range (header names and scheme names are ASCII). -/

def lowerChar (c : Char) : Char :=
  if 65 ≤ c.toNat ∧ c.toNat ≤ 90 then Char.ofNat (c.toNat + 32) else c

def lowerS (s : String) : String :=
  ⟨s.data.map lowerChar⟩

/-- Models JavaScript `String.prototype.startsWith`. -/
def startsWithS (s p : String) : Bool :=
  p.data.isPrefixOf s.data

/-! ## Header containers

Models the JS `Headers` class: a case-insensitive mapping.  `hset` replaces
the value of the first entry whose name matches case-insensitively, or
appends a new entry; `hget` returns the value of the first matching entry;
`hhas` is membership.  Name normalization is observed only through these
case-insensitive operations, so entries keep the name they were given. -/

abbrev HeadersL := List (String × String)

def hget : HeadersL → String → Option String
  | [], _ => none
  | (k', v) :: t, k => if lowerS k' = lowerS k then some v else hget t k

def hset : HeadersL → String → String → HeadersL
  | [], k, v => [(k, v)]
  | (k', v') :: t, k, v =>
    if lowerS k' = lowerS k then (k', v) :: t else (k', v') :: hset t k v

def hhas (h : HeadersL) (k : String) : Bool :=
  (hget h k).isSome

/-- Value of the last entry in a raw entry list whose name matches `k`
case-insensitively.  Used to state what a sequence of `set` calls over an
entry list leaves behind. -/
def hgetLast : List (String × String) → String → Option String
  | [], _ => none
  | p :: t, k =>
    match hgetLast t k with
    | some v => some v
    | none => if lowerS p.1 = lowerS k then some p.2 else none

/-- Truthiness of `headers.get(name)` in JS: present with a non-empty value. -/
def nonemptyAt (src : HeadersL) (k : String) : Bool :=
  match hget src k with
  | some v => v ≠ ""
  | none => false

/-! ## URLs

Models the WHATWG `URL` constructor on `scheme://host[/path][?query]`
inputs, which is the shape this proxy works with.  The fragment part is
stripped.  Opaque-path URLs (such as `mailto:`) and special-scheme
normalizations are outside the model. -/

structure URLRec where
  scheme : List Char
  host : List Char
  pathname : List Char
  search : List Char
deriving DecidableEq, Repr

def URLRec.origin (u : URLRec) : List Char :=
  u.scheme ++ ':' :: '/' :: '/' :: u.host

/-- Splits `scheme://rest` at the first occurrence of `://`. -/
def splitScheme : List Char → Option (List Char × List Char)
  | [] => none
  | c :: rest =>
    if c = ':' ∧ rest.take 2 = ['/', '/'] then some ([], rest.drop 2)
    else (splitScheme rest).map (fun p => (c :: p.1, p.2))

def validSchemeChar (c : Char) : Bool :=
  c.isAlpha || c.isDigit || c = '+' || c = '-' || c = '.'

def validScheme : List Char → Bool
  | [] => false
  | c :: rest => c.isAlpha && rest.all validSchemeChar

def hostChar (c : Char) : Bool :=
  c ≠ '/' && c ≠ '?'

/-- Splits a path-and-query tail at the first `?`. -/
def pathSearchSplit (cs : List Char) : List Char × List Char :=
  (cs.takeWhile (fun c => c ≠ '?'), cs.dropWhile (fun c => c ≠ '?'))

/-- Parses the part after `scheme://` into host, pathname and search. -/
def parseRest (rest : List Char) : Option (List Char × List Char × List Char) :=
  let host := rest.takeWhile hostChar
  let tail := rest.dropWhile hostChar
  if host = [] then none
  else
    match tail with
    | [] => some (host, ['/'], [])
    | '?' :: _ => some (host, ['/'], tail)
    | _ =>
      let pq := pathSearchSplit tail
      some (host, pq.1, pq.2)

/-- Models `new URL(s)`: absolute-URL parsing, `none` models the thrown
`TypeError`. -/
def parseURL (s : String) : Option URLRec :=
  let cs := s.data.takeWhile (fun c => c ≠ '#')
  match splitScheme cs with
  | none => none
  | some (sc, rest) =>
    if validScheme sc then
      match parseRest rest with
      | none => none
      | some (h, p, q) => some ⟨sc, h, p, q⟩
    else none

/-- Models `new URL(rel, base)` for the reference shapes the handler can
produce: an absolute URL (base ignored), a scheme-relative `//host/...`
reference (host taken from the reference), or an absolute path `/...`
(resolved against the origin of the base).  A plain relative path is
simplified to root-relative; the handler never produces one because a
parsed pathname always begins with `/`. -/
def urlJoin (rel : String) (base : URLRec) : URLRec :=
  match parseURL rel with
  | some u => u
  | none =>
    let cs := rel.data.takeWhile (fun c => c ≠ '#')
    match cs with
    | '/' :: '/' :: rest =>
      match parseRest rest with
      | some (h, p, q) => ⟨base.scheme, h, p, q⟩
      | none => ⟨base.scheme, base.host, ['/'], []⟩
    | '/' :: _ =>
      let pq := pathSearchSplit cs
      ⟨base.scheme, base.host, pq.1, pq.2⟩
    | _ =>
      let pq := pathSearchSplit cs
      ⟨base.scheme, base.host, '/' :: pq.1, pq.2⟩

/-- Models line 107 of the source: `new URL(url.pathname + url.search,
targetBaseUrl)`. -/
def targetRequestURL (u tb : URLRec) : URLRec :=
  urlJoin (String.mk (u.pathname ++ u.search)) tb

/-- Models `url.protocol.replace(":", "")`: `url.protocol` is the scheme
followed by a colon, and `replace` with a string pattern removes the first
occurrence. -/
def replaceColonOnce : List Char → List Char
  | [] => []
  | c :: t => if c = ':' then t else c :: replaceColonOnce t

def protoHeaderValue (u : URLRec) : String :=
  String.mk (replaceColonOnce (u.scheme ++ [':']))

/-! ## JSON

Models `JSON.parse` closely enough for the configuration values this
program reads: objects, arrays, strings with the simple escape sequences,
integer numbers, booleans and `null`.  Fractional and exponent number
forms and `\u` escapes are outside the model.  A fuel argument bounds the
recursion; the fuel supplied by `jsonParse` exceeds any possible nesting
depth of the input. -/

inductive JsValue where
  | null
  | bool (b : Bool)
  | num (n : Int)
  | str (s : String)
  | arr (elems : List JsValue)
  | obj (fields : List (String × JsValue))

def skipWs (cs : List Char) : List Char :=
  cs.dropWhile (fun c => c = ' ' ∨ c = '\n' ∨ c = '\t' ∨ c = '\r')

def escChar (c : Char) : Option Char :=
  if c = '"' then some '"'
  else if c = '\\' then some '\\'
  else if c = '/' then some '/'
  else if c = 'n' then some '\n'
  else if c = 't' then some '\t'
  else if c = 'r' then some '\r'
  else if c = 'b' then some (Char.ofNat 8)
  else if c = 'f' then some (Char.ofNat 12)
  else none

def parseJsonStringAux : List Char → List Char → Option (String × List Char)
  | acc, '"' :: rest => some (String.mk acc.reverse, rest)
  | acc, '\\' :: c :: rest =>
    match escChar c with
    | some e => parseJsonStringAux (e :: acc) rest
    | none => none
  | acc, c :: rest => parseJsonStringAux (c :: acc) rest
  | _, [] => none

def natOfDigits (ds : List Char) : Nat :=
  ds.foldl (fun a c => a * 10 + (c.toNat - 48)) 0

/-- In a JSON object literal a later duplicate key overrides the earlier
value while keeping the first position, as in JS. -/
def insertField (fs : List (String × JsValue)) (k : String) (v : JsValue) :
    List (String × JsValue) :=
  if fs.any (fun p => p.1 = k) then
    fs.map (fun p => if p.1 = k then (k, v) else p)
  else fs ++ [(k, v)]

def dedupFields (fs : List (String × JsValue)) : List (String × JsValue) :=
  fs.foldl (fun acc p => insertField acc p.1 p.2) []

mutual

def parseJsonVal : Nat → List Char → Option (JsValue × List Char)
  | 0, _ => none
  | fuel + 1, cs =>
    match skipWs cs with
    | 'n' :: 'u' :: 'l' :: 'l' :: rest => some (.null, rest)
    | 't' :: 'r' :: 'u' :: 'e' :: rest => some (.bool true, rest)
    | 'f' :: 'a' :: 'l' :: 's' :: 'e' :: rest => some (.bool false, rest)
    | '"' :: rest => (parseJsonStringAux [] rest).map (fun p => (.str p.1, p.2))
    | '[' :: rest =>
      match skipWs rest with
      | ']' :: r => some (.arr [], r)
      | cs2 => (parseJsonElems fuel cs2).map (fun p => (.arr p.1, p.2))
    | '\x7b' :: rest =>
      match skipWs rest with
      | '\x7d' :: r => some (.obj [], r)
      | cs2 => (parseJsonFields fuel cs2).map (fun p => (.obj (dedupFields p.1), p.2))
    | '-' :: rest =>
      let ds := rest.takeWhile Char.isDigit
      if ds = [] then none
      else some (.num (-(natOfDigits ds : Int)), rest.dropWhile Char.isDigit)
    | c :: rest =>
      if c.isDigit then
        let ds := (c :: rest).takeWhile Char.isDigit
        some (.num (natOfDigits ds : Int), (c :: rest).dropWhile Char.isDigit)
      else none
    | [] => none

def parseJsonElems : Nat → List Char → Option (List JsValue × List Char)
  | 0, _ => none
  | fuel + 1, cs =>
    match parseJsonVal fuel cs with
    | none => none
    | some (v, rest) =>
      match skipWs rest with
      | ',' :: r => (parseJsonElems fuel r).map (fun p => (v :: p.1, p.2))
      | ']' :: r => some ([v], r)
      | _ => none

def parseJsonFields : Nat → List Char → Option (List (String × JsValue) × List Char)
  | 0, _ => none
  | fuel + 1, cs =>
    match skipWs cs with
    | '"' :: r =>
      match parseJsonStringAux [] r with
      | none => none
      | some (k, r2) =>
        match skipWs r2 with
        | ':' :: r3 =>
          match parseJsonVal fuel r3 with
          | none => none
          | some (v, r4) =>
            match skipWs r4 with
            | ',' :: r5 => (parseJsonFields fuel r5).map (fun p => ((k, v) :: p.1, p.2))
            | '\x7d' :: r5 => some ([(k, v)], r5)
            | _ => none
        | _ => none
    | _ => none

end

/-- Models `JSON.parse`: the whole input must be consumed apart from
trailing whitespace; `none` models the thrown `SyntaxError`. -/
def jsonParse (s : String) : Option JsValue :=
  match parseJsonVal (2 * s.data.length + 4) s.data with
  | some (v, rest) => if skipWs rest = [] then some v else none
  | none => none

/-! Models JS string coercion `String(value)` of a parsed JSON value:
arrays join their elements with commas (with `null` rendering as the empty
string inside an array), objects render as `[object Object]`. -/

def jsToStringF : Nat → JsValue → String
  | 0, _ => ""
  | _ + 1, .null => "null"
  | _ + 1, .bool true => "true"
  | _ + 1, .bool false => "false"
  | _ + 1, .num n => toString n
  | _ + 1, .str s => s
  | _ + 1, .obj _ => "[object Object]"
  | fuel + 1, .arr xs =>
    String.intercalate ","
      (xs.map (fun x =>
        match x with
        | .null => ""
        | v => jsToStringF fuel v))

/-- Models `Object.entries(v)` followed by the string coercion applied by
`Headers.set` to each value.  `none` models the `TypeError` thrown by
`Object.entries(null)`.  A string yields one entry per character indexed
by position; numbers and booleans box to objects with no own enumerable
properties.  The fuel bounds the depth of the string coercion and is
chosen by the caller above the nesting depth of the value. -/
def entriesOfJs (fuel : Nat) : JsValue → Option (List (String × String))
  | .null => none
  | .obj fs => some (fs.map (fun p => (p.1, jsToStringF fuel p.2)))
  | .arr xs => some (xs.enum.map (fun p => (toString p.1, jsToStringF fuel p.2)))
  | .str s => some (s.data.enum.map (fun p => (toString p.1, String.singleton p.2)))
  | .num _ => some []
  | .bool _ => some []

/-- Lines 62 to 68 of the source: `JSON.parse(CUSTOM_HEADERS)` with any
parse failure caught and replaced by the empty object. -/
def parseCustomHeaders (raw : String) : JsValue :=
  (jsonParse raw).getD (.obj [])

/-- Lines 185 to 186 of the source: the entry list that the custom-header
application loop iterates over, `none` when `Object.entries` throws.  The
string-coercion fuel exceeds the nesting depth of any value parsed from
`raw`, since every nesting level consumes at least one character. -/
def resolvedCustomEntries (raw : String) : Option (List (String × String)) :=
  entriesOfJs (raw.data.length + 1) (parseCustomHeaders raw)

/-! ## Configuration -/

/-- Lines 24 to 35 of the source. -/
def DEFAULT_REQUEST_HEADERS : List String :=
  ["authorization", "content-type", "accept", "accept-encoding",
   "accept-language", "origin", "cache-control", "x-requested-with",
   "x-api-key", "x-auth-token"]

/-- Lines 38 to 47 of the source. -/
def DEFAULT_RESPONSE_HEADERS : List String :=
  ["content-type", "content-length", "content-range", "accept-ranges",
   "cache-control", "etag", "last-modified", "location"]

/-- Models `Netlify.env.get(k) || d`: the default is used when the
variable is unset or empty. -/
def envOr (v : Option String) (d : String) : String :=
  match v with
  | none => d
  | some s => if s = "" then d else s

/-- Lines 57 to 60 of the source. -/
def getAllowedRequestHeaders (allowedEnv : String) : List String :=
  if allowedEnv = "" then DEFAULT_REQUEST_HEADERS
  else (allowedEnv.splitOn ",").map (fun h => lowerS h.trim)

/-! ## Header building pipeline -/

/-- Loop shape of lines 117 to 122 and 170 to 175 of the source: for each
name in `names`, copy the value from `src` when `get` is truthy, that is
present and non-empty. -/
def copyIfNonempty (src : HeadersL) : List String → HeadersL → HeadersL
  | [], acc => acc
  | n :: ns, acc =>
    copyIfNonempty src ns
      (match hget src n with
       | some v => if v = "" then acc else hset acc n v
       | none => acc)

/-- Loop shape of lines 125 to 129 and 178 to 182 of the source: copy
every `src` entry whose lower-cased name starts with `x-` and is not
already set. -/
def copyX : HeadersL → HeadersL → HeadersL
  | [], acc => acc
  | p :: ps, acc =>
    copyX ps (if startsWithS (lowerS p.1) "x-" && !hhas acc p.1 then hset acc p.1 p.2 else acc)

/-- Lines 186 to 188 of the source: set every entry unconditionally. -/
def setAllHeaders : List (String × String) → HeadersL → HeadersL
  | [], acc => acc
  | p :: ps, acc => setAllHeaders ps (hset acc p.1 p.2)

def CORS_METHODS_VALUE : String := "GET, POST, PUT, DELETE, OPTIONS, HEAD, PATCH"

def CORS_HEADERS_VALUE : String :=
  "Authorization, Content-Type, X-Requested-With, X-API-Key, X-Auth-Token"

/-- Models `if (!responseHeaders.has(k)) responseHeaders.set(k, v)`. -/
def setIfAbsent (h : HeadersL) (k v : String) : HeadersL :=
  if hhas h k then h else hset h k v

/-- Lines 191 to 199 of the source: CORS defaults are filled in only when
absent, in source order. -/
def corsDefaults (h0 : HeadersL) : HeadersL :=
  setIfAbsent
    (setIfAbsent (setIfAbsent h0 "Access-Control-Allow-Origin" "*")
      "Access-Control-Allow-Methods" CORS_METHODS_VALUE)
    "Access-Control-Allow-Headers" CORS_HEADERS_VALUE

/-- Lines 167 to 199 of the source: response header construction from the
upstream headers and the resolved custom entries. -/
def buildResponseHeaders (upstream : HeadersL) (custom : List (String × String)) : HeadersL :=
  corsDefaults (setAllHeaders custom (copyX upstream (copyIfNonempty upstream DEFAULT_RESPONSE_HEADERS [])))

/-- Lines 113 to 135 of the source: outbound request header construction. -/
def buildRequestHeaders (reqHeaders : HeadersL) (allowed : List String)
    (clientIP proto host targetHost : String) : HeadersL :=
  hset (hset (hset (hset (copyX reqHeaders (copyIfNonempty reqHeaders allowed []))
    "X-Forwarded-For" clientIP) "X-Forwarded-Proto" proto) "X-Forwarded-Host" host)
    "Host" targetHost

/-! ## Requests, responses and the handler -/

inductive BodyM where
  /-- A streamed body, passed through by reference; `none` is a null body. -/
  | stream (bytes : Option (List Nat))
  /-- A `JSON.stringify` body of a flat record of string fields, modelled
  by its field list in order. -/
  | jsonBody (fields : List (String × String))
deriving DecidableEq

structure Request where
  method : String
  url : String
  headers : HeadersL
  body : Option (List Nat)
deriving DecidableEq

structure UpstreamResponse where
  status : Nat
  statusText : String
  headers : HeadersL
  body : Option (List Nat)
deriving DecidableEq

structure ClientResponse where
  status : Nat
  statusText : String
  headers : HeadersL
  body : BodyM
deriving DecidableEq

/-- Lines 74 to 85 of the source. -/
def configMissingResponse : ClientResponse :=
  ⟨500, "", [("Content-Type", "application/json")],
    .jsonBody [("error", "Configuration Error"),
               ("message", "TARGET_URL environment variable is not set")]⟩

/-- Lines 92 to 101 of the source. -/
def configInvalidResponse (t : String) : ClientResponse :=
  ⟨500, "", [("Content-Type", "application/json")],
    .jsonBody [("error", "Configuration Error"),
               ("message", "Invalid TARGET_URL: " ++ t)]⟩

/-- Lines 151 to 162 of the source. -/
def proxyErrorResponse (t details : String) : ClientResponse :=
  ⟨502, "", [("Content-Type", "application/json")],
    .jsonBody [("error", "Proxy Error"),
               ("message", "Failed to connect to target server"),
               ("target", t),
               ("details", details)]⟩

structure Env where
  TARGET_URL : Option String
  ALLOWED_HEADERS : Option String
  CUSTOM_HEADERS : Option String
deriving DecidableEq

/-- Call site of `buildRequestHeaders` inside the handler, lines 113 to
135: the allow-list comes from `ALLOWED_HEADERS`, the forwarding values
from `context.ip`, the inbound URL and the target base URL. -/
def outboundHeaders (env : Env) (req : Request) (clientIP : String) (u tb : URLRec) : HeadersL :=
  buildRequestHeaders req.headers (getAllowedRequestHeaders (envOr env.ALLOWED_HEADERS ""))
    clientIP (protoHeaderValue u) (String.mk u.host) (String.mk tb.host)

/-- Lines 203 to 221 of the source: the redirect rewriting step applied to
the already built response headers. -/
def rewriteLocation (resp : UpstreamResponse) (tb u : URLRec) (rh : HeadersL) : HeadersL :=
  if 300 ≤ resp.status ∧ resp.status < 400 then
    match hget resp.headers "location" with
    | none => rh
    | some loc =>
      if loc = "" then rh
      else
        match parseURL loc with
        | some locUrl =>
          if locUrl.origin = tb.origin then
            hset rh "Location" (String.mk (u.origin ++ locUrl.pathname ++ locUrl.search))
          else hset rh "Location" loc
        | none => hset rh "Location" loc
  else rh

/-- The outcome of `fetch`, supplied to the handler as an oracle: it
receives exactly the target URL, method, outbound headers and body the
source passes to `fetch`, and either yields an upstream response or fails
with a cause message (the caught network error). -/
abbrev FetchOracle :=
  URLRec → String → HeadersL → Option (List Nat) → Except String UpstreamResponse

/-- Lines 72 to 231 of the source: the default export handler.  `none`
models an uncaught exception escaping the handler (`new URL(request.url)`
throwing, which the runtime precludes, or `Object.entries(null)` throwing
in the custom-header loop).  In the final response the source reads
`response.statusStatusText`, a property that does not exist on `Response`,
so the construction receives `undefined` and the `statusText` defaults to
the empty string. -/
def handler (env : Env) (req : Request) (clientIP : String) (fetchF : FetchOracle) :
    Option ClientResponse :=
  match env.TARGET_URL with
  | none => some configMissingResponse
  | some t =>
    if t = "" then some configMissingResponse
    else
      match parseURL t with
      | none => some (configInvalidResponse t)
      | some tb =>
        match parseURL req.url with
        | none => none
        | some u =>
          match fetchF (targetRequestURL u tb) req.method (outboundHeaders env req clientIP u tb) req.body with
          | .error e => some (proxyErrorResponse t e)
          | .ok resp =>
            match resolvedCustomEntries (envOr env.CUSTOM_HEADERS "\x7b\x7d") with
            | none => none
            | some ces =>
              some { status := resp.status
                     statusText := ""
                     headers := rewriteLocation resp tb u (buildResponseHeaders resp.headers ces)
                     body := .stream resp.body }

/-! ## Helper lemmas about the header container -/

theorem hget_hset (h : HeadersL) (k v k' : String) :
    hget (hset h k v) k' = if lowerS k' = lowerS k then some v else hget h k' := by
  induction h with
  | nil =>
    rcases eq_or_ne (lowerS k') (lowerS k) with e | e
    · simp [hget, hset, e]
    · simp [hget, hset, e, Ne.symm e]
  | cons p t ih =>
    obtain ⟨a, b⟩ := p
    by_cases e1 : lowerS a = lowerS k
    · by_cases e2 : lowerS k' = lowerS k
      · simp [hget, hset, e1, e2, e1.trans e2.symm]
      · have e3 : lowerS a ≠ lowerS k' := fun hh => e2 (hh.symm.trans e1)
        simp [hget, hset, e1, e2, e3, Ne.symm e2]
    · by_cases e2 : lowerS a = lowerS k'
      · have e3 : lowerS k' ≠ lowerS k := fun hh => e1 (e2.trans hh)
        simp [hget, hset, e1, e2, e3]
      · simp [hget, hset, e1, e2, ih]

theorem hget_congr (h : HeadersL) {k₁ k₂ : String} (e : lowerS k₁ = lowerS k₂) :
    hget h k₁ = hget h k₂ := by
  induction h with
  | nil => rfl
  | cons p t ih => simp [hget, e, ih]

theorem hgetLast_congr (es : List (String × String)) {k₁ k₂ : String}
    (e : lowerS k₁ = lowerS k₂) : hgetLast es k₁ = hgetLast es k₂ := by
  induction es with
  | nil => rfl
  | cons p t ih => simp [hgetLast, e, ih]

theorem nonemptyAt_congr (src : HeadersL) {k₁ k₂ : String} (e : lowerS k₁ = lowerS k₂) :
    nonemptyAt src k₁ = nonemptyAt src k₂ := by
  simp [nonemptyAt, hget_congr src e]

theorem copyIfNonempty_get (names : List String) (src acc : HeadersL) (k : String) :
    hget (copyIfNonempty src names acc) k =
      if (names.any fun n => lowerS n == lowerS k) && nonemptyAt src k
      then hget src k else hget acc k := by
  induction names generalizing acc with
  | nil => simp [copyIfNonempty]
  | cons n ns ih =>
    rw [copyIfNonempty, ih]
    by_cases e : lowerS n = lowerS k
    · have hany : ((n :: ns).any fun m => lowerS m == lowerS k) = true := by
        simp [List.any_cons, e]
      rcases hv : hget src k with _ | v
      · have hne : nonemptyAt src k = false := by simp [nonemptyAt, hv]
        rw [(hget_congr src e).trans hv]
        simp [hne, hv]
      · have hvn : hget src n = some v := (hget_congr src e).trans hv
        by_cases hveq : v = ""
        · have hne : nonemptyAt src k = false := by simp [nonemptyAt, hv, hveq]
          rw [hvn]
          simp [hveq, hne]
        · have hne : nonemptyAt src k = true := by simp [nonemptyAt, hv, hveq]
          simp only [hvn]
          rw [if_neg hveq]
          have hstep : hget (hset acc n v) k = some v := by
            rw [hget_hset, if_pos e.symm]
          by_cases hmem : (ns.any fun m => lowerS m == lowerS k) = true
          · simp [hmem, hne, hany, hv]
          · have hmem' : (ns.any fun m => lowerS m == lowerS k) = false := by
              simpa using hmem
            simp [hmem', hne, hany, hstep, hv]
    · have hstep : hget
          (match hget src n with
           | some v => if v = "" then acc else hset acc n v
           | none => acc) k = hget acc k := by
        rcases hv : hget src n with _ | v
        · rfl
        · simp only [hv]
          by_cases hveq : v = ""
          · simp [hveq]
          · rw [if_neg hveq, hget_hset,
              if_neg (fun hh : lowerS k = lowerS n => e hh.symm)]
      rw [hstep]
      have hcond : ((n :: ns).any fun m => lowerS m == lowerS k)
          = (ns.any fun m => lowerS m == lowerS k) := by
        simp [List.any_cons, e]
      rw [hcond]

theorem copyX_get (es acc : HeadersL) (k : String) :
    hget (copyX es acc) k =
      match hget acc k with
      | some v => some v
      | none => if startsWithS (lowerS k) "x-" then hget es k else none := by
  induction es generalizing acc with
  | nil =>
    rcases hv : hget acc k with _ | v <;>
      simp [copyX, hv, show hget ([] : HeadersL) k = none from rfl, ite_self]
  | cons p ps ih =>
    rw [copyX, ih]
    by_cases e : lowerS p.1 = lowerS k
    · have hacc := hget_congr acc e
      have hsw : startsWithS (lowerS p.1) "x-" = startsWithS (lowerS k) "x-" := by rw [e]
      have hgc : hget (p :: ps) k = some p.2 := by
        show (if lowerS p.1 = lowerS k then some p.2 else hget ps k) = some p.2
        rw [if_pos e]
      rcases hv : hget acc k with _ | v
      · have hA : hhas acc p.1 = false := by
          simp [hhas, hacc, hv]
        cases hx : startsWithS (lowerS k) "x-" with
        | false => simp [hsw, hx, hA, hv, hgc]
        | true =>
          rw [hsw, hx, hA]
          have hstep : hget (hset acc p.1 p.2) k = some p.2 := by
            rw [hget_hset, if_pos e.symm]
          simp [hstep, hv, hgc]
      · have hA : hhas acc p.1 = true := by
          simp [hhas, hacc, hv]
        simp [hA, hv]
    · have hstep : hget
          (if startsWithS (lowerS p.1) "x-" && !hhas acc p.1 then hset acc p.1 p.2 else acc) k
          = hget acc k := by
        split
        · rw [hget_hset, if_neg (fun hh : lowerS k = lowerS p.1 => e hh.symm)]
        · rfl
      rw [hstep]
      have hgc : hget (p :: ps) k = hget ps k := by
        show (if lowerS p.1 = lowerS k then some p.2 else hget ps k) = hget ps k
        rw [if_neg e]
      rw [hgc]

theorem setAll_get (es : List (String × String)) (acc : HeadersL) (k : String) :
    hget (setAllHeaders es acc) k =
      match hgetLast es k with
      | some v => some v
      | none => hget acc k := by
  induction es generalizing acc with
  | nil => simp [setAllHeaders, hgetLast]
  | cons p ps ih =>
    rw [setAllHeaders, ih]
    rcases hl : hgetLast ps k with _ | v
    · by_cases e : lowerS p.1 = lowerS k
      · have hstep : hget (hset acc p.1 p.2) k = some p.2 := by
          rw [hget_hset, if_pos e.symm]
        simp [hgetLast, hl, e, hstep]
      · have hstep : hget (hset acc p.1 p.2) k = hget acc k := by
          rw [hget_hset, if_neg (fun hh : lowerS k = lowerS p.1 => e hh.symm)]
        simp [hgetLast, hl, e, hstep]
    · simp [hgetLast, hl]

theorem setIfAbsent_get_of_ne (h : HeadersL) (k v k' : String)
    (hne : lowerS k' ≠ lowerS k) : hget (setIfAbsent h k v) k' = hget h k' := by
  unfold setIfAbsent
  split
  · rfl
  · rw [hget_hset, if_neg hne]

theorem setIfAbsent_get_self (h : HeadersL) (k v : String) :
    hget (setIfAbsent h k v) k =
      match hget h k with
      | some w => some w
      | none => some v := by
  unfold setIfAbsent
  rcases hv : hget h k with _ | w
  · rw [if_neg (by simp [hhas, hv])]
    simp [hget_hset]
  · rw [if_pos (by simp [hhas, hv]), hv]

theorem corsDefaults_get_of_ne (h : HeadersL) (k : String)
    (h1 : lowerS k ≠ lowerS "Access-Control-Allow-Origin")
    (h2 : lowerS k ≠ lowerS "Access-Control-Allow-Methods")
    (h3 : lowerS k ≠ lowerS "Access-Control-Allow-Headers") :
    hget (corsDefaults h) k = hget h k := by
  unfold corsDefaults
  rw [setIfAbsent_get_of_ne _ _ _ _ h3, setIfAbsent_get_of_ne _ _ _ _ h2,
    setIfAbsent_get_of_ne _ _ _ _ h1]

theorem corsDefaults_get_origin (h : HeadersL) :
    hget (corsDefaults h) "Access-Control-Allow-Origin" =
      match hget h "Access-Control-Allow-Origin" with
      | some v => some v
      | none => some "*" := by
  unfold corsDefaults
  rw [setIfAbsent_get_of_ne _ _ _ _ (by decide), setIfAbsent_get_of_ne _ _ _ _ (by decide),
    setIfAbsent_get_self]

theorem corsDefaults_get_methods (h : HeadersL) :
    hget (corsDefaults h) "Access-Control-Allow-Methods" =
      match hget h "Access-Control-Allow-Methods" with
      | some v => some v
      | none => some CORS_METHODS_VALUE := by
  unfold corsDefaults
  rw [setIfAbsent_get_of_ne _ _ _ _ (by decide), setIfAbsent_get_self,
    setIfAbsent_get_of_ne _ _ _ _ (by decide)]

theorem corsDefaults_get_hdrs (h : HeadersL) :
    hget (corsDefaults h) "Access-Control-Allow-Headers" =
      match hget h "Access-Control-Allow-Headers" with
      | some v => some v
      | none => some CORS_HEADERS_VALUE := by
  unfold corsDefaults
  rw [setIfAbsent_get_self, setIfAbsent_get_of_ne _ _ _ _ (by decide),
    setIfAbsent_get_of_ne _ _ _ _ (by decide)]

/-! ## Helper lemmas about takeWhile, dropWhile and URL parsing -/

theorem takeWhile_all_eq {p : Char → Bool} :
    ∀ l : List Char, (∀ c ∈ l, p c = true) → l.takeWhile p = l := by
  intro l h
  induction l with
  | nil => rfl
  | cons a t ih =>
    rw [List.takeWhile_cons, h a (List.mem_cons_self a t)]
    simp [ih fun c hc => h c (List.mem_cons_of_mem a hc)]

theorem takeWhile_append_all {p : Char → Bool} (l₁ l₂ : List Char)
    (h : ∀ c ∈ l₁, p c = true) :
    (l₁ ++ l₂).takeWhile p = l₁ ++ l₂.takeWhile p := by
  induction l₁ with
  | nil => rfl
  | cons a t ih =>
    rw [List.cons_append, List.takeWhile_cons, h a (List.mem_cons_self a t)]
    simp [ih fun c hc => h c (List.mem_cons_of_mem a hc)]

theorem dropWhile_append_all {p : Char → Bool} (l₁ l₂ : List Char)
    (h : ∀ c ∈ l₁, p c = true) :
    (l₁ ++ l₂).dropWhile p = l₂.dropWhile p := by
  induction l₁ with
  | nil => rfl
  | cons a t ih =>
    rw [List.cons_append, List.dropWhile_cons, h a (List.mem_cons_self a t)]
    simp [ih fun c hc => h c (List.mem_cons_of_mem a hc)]

theorem mem_takeWhile_mem {p : Char → Bool} {l : List Char} {c : Char}
    (h : c ∈ l.takeWhile p) : c ∈ l := by
  induction l with
  | nil => simpa using h
  | cons a t ih =>
    rw [List.takeWhile_cons] at h
    by_cases hp : p a = true
    · rw [hp] at h
      simp only [if_true] at h
      rcases List.mem_cons.mp h with h | h
      · exact h ▸ List.mem_cons_self a t
      · exact List.mem_cons_of_mem a (ih h)
    · rw [Bool.of_not_eq_true hp] at h
      simp at h

theorem mem_takeWhile_pred {p : Char → Bool} {l : List Char} {c : Char}
    (h : c ∈ l.takeWhile p) : p c = true := by
  induction l with
  | nil => simpa using h
  | cons a t ih =>
    rw [List.takeWhile_cons] at h
    by_cases hp : p a = true
    · rw [hp] at h
      simp only [if_true] at h
      rcases List.mem_cons.mp h with h | h
      · exact h ▸ hp
      · exact ih h
    · rw [Bool.of_not_eq_true hp] at h
      simp at h

theorem mem_dropWhile_mem {p : Char → Bool} {l : List Char} {c : Char}
    (h : c ∈ l.dropWhile p) : c ∈ l := by
  induction l with
  | nil => simpa using h
  | cons a t ih =>
    rw [List.dropWhile_cons] at h
    by_cases hp : p a = true
    · rw [hp] at h
      simp only [if_true] at h
      exact List.mem_cons_of_mem a (ih h)
    · rw [Bool.of_not_eq_true hp] at h
      simpa using h

theorem dropWhile_head_false {p : Char → Bool} :
    ∀ (l : List Char) (c : Char) (t : List Char), l.dropWhile p = c :: t → p c = false := by
  intro l
  induction l with
  | nil => intro c t h; simp at h
  | cons a s ih =>
    intro c t h
    rw [List.dropWhile_cons] at h
    by_cases hp : p a = true
    · rw [hp] at h
      simp only [if_true] at h
      exact ih c t h
    · rw [if_neg hp] at h
      obtain ⟨ha, _⟩ := List.cons.inj h
      rw [← ha]
      exact Bool.of_not_eq_true hp

theorem splitScheme_eq :
    ∀ (cs sc rest : List Char), splitScheme cs = some (sc, rest) →
      cs = sc ++ ':' :: '/' :: '/' :: rest := by
  intro cs
  induction cs with
  | nil =>
    intro sc rest h
    exact Option.noConfusion h
  | cons c rest ih =>
    intro sc r h
    rw [splitScheme] at h
    by_cases hc : c = ':' ∧ rest.take 2 = ['/', '/']
    · rw [if_pos hc] at h
      simp only [Option.some.injEq, Prod.mk.injEq] at h
      obtain ⟨h1, h2⟩ := h
      rw [← h1, List.nil_append, ← h2, hc.1]
      rw [show ('/' : Char) :: '/' :: rest.drop 2 = ['/', '/'] ++ rest.drop 2 from rfl,
        ← hc.2, List.take_append_drop]
    · rw [if_neg hc] at h
      rcases hs : splitScheme rest with _ | p
      · rw [hs] at h; exact Option.noConfusion h
      · rw [hs] at h
        simp only [Option.map_some', Option.some.injEq, Prod.mk.injEq] at h
        obtain ⟨h1, h2⟩ := h
        rw [← h1, ← h2, List.cons_append]
        exact congrArg (c :: ·) (ih p.1 p.2 (by rw [hs]))

theorem parseRest_shape (rest hh p q : List Char)
    (hp : parseRest rest = some (hh, p, q)) :
    (∃ t, p = '/' :: t) ∧ (∀ c ∈ p, c = '/' ∨ c ∈ rest) ∧ (∀ c ∈ p, ¬c = '?') ∧
    (q = [] ∨ ∃ t, q = '?' :: t) ∧ (∀ c ∈ q, c ∈ rest) := by
  simp only [parseRest] at hp
  split at hp
  · exact Option.noConfusion hp
  · split at hp
    · simp only [Option.some.injEq, Prod.mk.injEq] at hp
      obtain ⟨_, e2, e3⟩ := hp
      rw [← e2, ← e3]
      refine ⟨⟨[], rfl⟩, ?_, ?_, Or.inl rfl, ?_⟩ <;> simp
    · rename_i heq
      simp only [Option.some.injEq, Prod.mk.injEq] at hp
      obtain ⟨_, e2, e3⟩ := hp
      rw [← e2, ← e3]
      refine ⟨⟨[], rfl⟩, by simp, by simp, Or.inr ⟨_, heq⟩, ?_⟩
      intro c hc
      exact mem_dropWhile_mem hc
    · rename_i hne1 hne2
      simp only [Option.some.injEq, Prod.mk.injEq] at hp
      obtain ⟨_, e2, e3⟩ := hp
      rw [← e2, ← e3]
      rcases ht : rest.dropWhile hostChar with _ | ⟨c, t⟩
      · exact absurd ht hne1
      · have hcfalse : (decide (c ≠ '/') && decide (c ≠ '?')) = false :=
          dropWhile_head_false rest c t ht
        have hcslash : c = '/' := by
          by_cases h1 : c = '/'
          · exact h1
          · by_cases h2 : c = '?'
            · exact absurd (show rest.dropWhile hostChar = '?' :: t by rw [ht, h2])
                (fun hh => hne2 t hh)
            · rw [decide_eq_true h1, decide_eq_true h2] at hcfalse
              exact Bool.noConfusion hcfalse
        have hchead : (decide (c ≠ '?')) = true := by
          rw [hcslash]; decide
        have hP : (pathSearchSplit (c :: t)).1
            = c :: t.takeWhile (fun c => decide (c ≠ '?')) := by
          rw [pathSearchSplit]
          simp only
          rw [List.takeWhile_cons, hchead]
          simp
        have hQ : (pathSearchSplit (c :: t)).2
            = t.dropWhile (fun c => decide (c ≠ '?')) := by
          rw [pathSearchSplit]
          simp only
          rw [List.dropWhile_cons, hchead]
          simp
        have hmemt : ∀ d ∈ t, d ∈ rest := by
          intro d hd
          exact mem_dropWhile_mem (ht ▸ List.mem_cons_of_mem c hd)
        refine ⟨?_, ?_, ?_, ?_, ?_⟩
        · rw [hP, hcslash]
          exact ⟨_, rfl⟩
        · intro d hd
          rw [hP] at hd
          rcases List.mem_cons.mp hd with h | h
          · exact Or.inl (h.trans hcslash)
          · exact Or.inr (hmemt d (mem_takeWhile_mem h))
        · intro d hd
          rw [hP] at hd
          rcases List.mem_cons.mp hd with h | h
          · rw [h, hcslash]; decide
          · exact of_decide_eq_true (mem_takeWhile_pred h)
        · rw [hQ]
          rcases hq : t.dropWhile (fun c => decide (c ≠ '?')) with _ | ⟨d, s⟩
          · exact Or.inl rfl
          · have hd := dropWhile_head_false t d s hq
            have hdq : d = '?' := by
              by_contra hc
              rw [decide_eq_true hc] at hd
              exact Bool.noConfusion hd
            rw [hdq]
            exact Or.inr ⟨s, rfl⟩
        · intro d hd
          rw [hQ] at hd
          exact hmemt d (mem_dropWhile_mem hd)

theorem parseURL_shape (s : String) (u : URLRec) (hp : parseURL s = some u) :
    (∃ t, u.pathname = '/' :: t) ∧ (∀ c ∈ u.pathname, ¬c = '?') ∧
    (∀ c ∈ u.pathname, ¬c = '#') ∧
    (u.search = [] ∨ ∃ t, u.search = '?' :: t) ∧ (∀ c ∈ u.search, ¬c = '#') := by
  simp only [parseURL] at hp
  split at hp
  · exact Option.noConfusion hp
  · rename_i sc rest hss
    split at hp
    · split at hp
      · exact Option.noConfusion hp
      · rename_i hh pp qq hpr
        simp only [Option.some.injEq] at hp
        obtain ⟨hex, hmem, hnq, hqs, hqmem⟩ := parseRest_shape rest hh pp qq hpr
        have hrest_hash : ∀ c ∈ rest, ¬c = '#' := by
          intro c hc
          have hccs : c ∈ s.data.takeWhile (fun c => decide (c ≠ '#')) := by
            rw [splitScheme_eq _ _ _ hss]
            exact List.mem_append_right _ (by simp [hc])
          exact of_decide_eq_true (mem_takeWhile_pred hccs)
        rw [← hp]
        refine ⟨hex, hnq, ?_, hqs, ?_⟩
        · intro c hc
          rcases hmem c hc with h | h
          · rw [h]; decide
          · exact hrest_hash c h
        · intro c hc
          exact hrest_hash c (hqmem c hc)
    · exact Option.noConfusion hp

theorem parseURL_data_slash (s : String) (t : List Char) (hs : s.data = '/' :: t) :
    parseURL s = none := by
  simp only [parseURL, hs, List.takeWhile_cons, show (decide (('/' : Char) ≠ '#')) = true from by decide, if_true]
  rcases hss : splitScheme ('/' :: t.takeWhile fun c => decide (c ≠ '#')) with _ | ⟨sc, rest⟩
  · rfl
  · have heq := splitScheme_eq _ _ _ hss
    rcases sc with _ | ⟨c, sc'⟩
    · rw [List.nil_append] at heq
      exact absurd (List.cons.inj heq).1 (by decide)
    · rw [List.cons_append] at heq
      have hc : c = '/' := ((List.cons.inj heq).1).symm
      have : validScheme (c :: sc') = false := by
        rw [validScheme, hc, show ('/' : Char).isAlpha = false from by decide,
          Bool.false_and]
      simp [this]

theorem targetRequestURL_of_parse (s : String) (u tb : URLRec)
    (hu : parseURL s = some u) (htake : u.pathname.take 2 ≠ ['/', '/']) :
    targetRequestURL u tb = ⟨tb.scheme, tb.host, u.pathname, u.search⟩ := by
  obtain ⟨⟨pt, hpt⟩, hnq, hnh, hqs, hqh⟩ := parseURL_shape s u hu
  have hdata : (String.mk (u.pathname ++ u.search)).data = '/' :: (pt ++ u.search) := by
    show u.pathname ++ u.search = '/' :: (pt ++ u.search)
    rw [hpt, List.cons_append]
  have hnone : parseURL (String.mk (u.pathname ++ u.search)) = none :=
    parseURL_data_slash _ _ hdata
  have hall : ∀ c ∈ u.pathname ++ u.search, (decide (c ≠ '#')) = true := by
    intro c hc
    rcases List.mem_append.mp hc with h | h
    · exact decide_eq_true (hnh c h)
    · exact decide_eq_true (hqh c h)
  have hcs : (String.mk (u.pathname ++ u.search)).data.takeWhile (fun c => decide (c ≠ '#'))
      = '/' :: (pt ++ u.search) := by
    rw [show (String.mk (u.pathname ++ u.search)).data = u.pathname ++ u.search from rfl,
      takeWhile_all_eq _ hall, hpt, List.cons_append]
  have hPS1 : (pathSearchSplit (u.pathname ++ u.search)).1 = u.pathname := by
    rw [pathSearchSplit]
    simp only
    rw [takeWhile_append_all _ _ (fun c hc => decide_eq_true (hnq c hc))]
    rcases hqs with h | ⟨t2, h⟩
    · rw [h]; simp
    · rw [h, List.takeWhile_cons, show (decide (('?' : Char) ≠ '?')) = false from by decide]
      simp
  have hPS2 : (pathSearchSplit (u.pathname ++ u.search)).2 = u.search := by
    rw [pathSearchSplit]
    simp only
    rw [dropWhile_append_all _ _ (fun c hc => decide_eq_true (hnq c hc))]
    rcases hqs with h | ⟨t2, h⟩
    · rw [h]; simp
    · rw [h, List.dropWhile_cons, show (decide (('?' : Char) ≠ '?')) = false from by decide]
      simp
  rw [targetRequestURL, urlJoin, hnone]
  simp only [hcs]
  split
  · rename_i rest2 heq
    obtain ⟨-, heq2⟩ := List.cons.inj heq
    exfalso
    rcases pt with _ | ⟨a, pt'⟩
    · rcases hqs with h | ⟨t2, h⟩
      · rw [h] at heq2
        exact List.noConfusion heq2
      · rw [h, List.nil_append] at heq2
        exact absurd (List.cons.inj heq2).1 (by decide)
    · rw [List.cons_append] at heq2
      have ha : a = '/' := (List.cons.inj heq2).1
      exact htake (by rw [hpt, ha]; rfl)
  · rw [show ('/' :: (pt ++ u.search)) = u.pathname ++ u.search by
        rw [hpt, List.cons_append], hPS1, hPS2]
  · rename_i hno1 hno2
    exact absurd rfl (hno2 (pt ++ u.search))

/-- Reduction of the handler on the successful path, shared by the claims
about successful exchanges. -/
theorem handler_ok_eq (env : Env) (req : Request) (ip : String) (f : FetchOracle)
    (t : String) (tb u : URLRec) (resp : UpstreamResponse)
    (ces : List (String × String))
    (ht : env.TARGET_URL = some t) (hte : t ≠ "")
    (htb : parseURL t = some tb) (hu : parseURL req.url = some u)
    (hf : f (targetRequestURL u tb) req.method (outboundHeaders env req ip u tb) req.body
        = .ok resp)
    (hces : resolvedCustomEntries (envOr env.CUSTOM_HEADERS "\x7b\x7d") = some ces) :
    handler env req ip f = some
      { status := resp.status
        statusText := ""
        headers := rewriteLocation resp tb u (buildResponseHeaders resp.headers ces)
        body := .stream resp.body } := by
  simp only [handler, ht, if_neg hte, htb, hu, hf, hces]

/-- C1: when `TARGET_URL` is unset or does not parse as an absolute URL,
every request gets a 500 response with content type `application/json`
whose JSON error field is `Configuration Error`, and the result does not
depend on the fetch oracle, so no upstream call is consulted. -/
theorem c1_config_error (env : Env) (req : Request) (ip : String)
    (f f' : FetchOracle)
    (hc : env.TARGET_URL = none ∨ ∃ t, env.TARGET_URL = some t ∧ parseURL t = none) :
    handler env req ip f = handler env req ip f' ∧
    ∃ r, handler env req ip f = some r ∧ r.status = 500 ∧
      hget r.headers "Content-Type" = some "application/json" ∧
      ∃ fs, r.body = BodyM.jsonBody fs ∧ fs.lookup "error" = some "Configuration Error" := by
  rcases hc with h | ⟨t, ht, hpt⟩
  · have hred : ∀ g : FetchOracle, handler env req ip g = some configMissingResponse := by
      intro g; simp only [handler, h]
    exact ⟨(hred f).trans (hred f').symm, configMissingResponse, hred f, rfl, rfl,
      ⟨[("error", "Configuration Error"),
        ("message", "TARGET_URL environment variable is not set")], rfl, rfl⟩⟩
  · by_cases hte : t = ""
    · have hred : ∀ g : FetchOracle, handler env req ip g = some configMissingResponse := by
        intro g; simp [handler, ht, hte]
      exact ⟨(hred f).trans (hred f').symm, configMissingResponse, hred f, rfl, rfl,
        ⟨[("error", "Configuration Error"),
          ("message", "TARGET_URL environment variable is not set")], rfl, rfl⟩⟩
    · have hred : ∀ g : FetchOracle, handler env req ip g = some (configInvalidResponse t) := by
        intro g; simp only [handler, ht, if_neg hte, hpt]
      exact ⟨(hred f).trans (hred f').symm, configInvalidResponse t, hred f, rfl, rfl,
        ⟨[("error", "Configuration Error"), ("message", "Invalid TARGET_URL: " ++ t)],
          rfl, rfl⟩⟩

/-- C1 witness: a concrete unset `TARGET_URL` environment, with two fetch
oracles giving different outcomes, yields the guaranteed 500 response. -/
theorem c1_config_error_witness :
    handler ⟨none, none, none⟩ ⟨"GET", "https://proxy.example/a", [], none⟩ "1.2.3.4"
        (fun _ _ _ _ => Except.error "boom")
      = handler ⟨none, none, none⟩ ⟨"GET", "https://proxy.example/a", [], none⟩ "1.2.3.4"
        (fun _ _ _ _ => Except.ok ⟨200, "", [], none⟩) ∧
    ∃ r, handler ⟨none, none, none⟩ ⟨"GET", "https://proxy.example/a", [], none⟩ "1.2.3.4"
        (fun _ _ _ _ => Except.error "boom") = some r ∧ r.status = 500 ∧
      hget r.headers "Content-Type" = some "application/json" ∧
      ∃ fs, r.body = BodyM.jsonBody fs ∧ fs.lookup "error" = some "Configuration Error" :=
  c1_config_error ⟨none, none, none⟩ ⟨"GET", "https://proxy.example/a", [], none⟩ "1.2.3.4"
    (fun _ _ _ _ => Except.error "boom") (fun _ _ _ _ => Except.ok ⟨200, "", [], none⟩)
    (Or.inl rfl)

/-- C6: a network-level fetch failure produces a 502 response with content
type `application/json` and the exact JSON fields of the source, with the
`details` field carrying the cause message.  The handler consumes a single
fetch outcome by construction, so the failure is not retried. -/
theorem c6_fetch_failure (env : Env) (req : Request) (ip : String) (f : FetchOracle)
    (t msg : String) (tb u : URLRec)
    (ht : env.TARGET_URL = some t) (hte : t ≠ "")
    (htb : parseURL t = some tb) (hu : parseURL req.url = some u)
    (hf : f (targetRequestURL u tb) req.method (outboundHeaders env req ip u tb) req.body
        = .error msg) :
    ∃ r, handler env req ip f = some r ∧ r.status = 502 ∧
      hget r.headers "Content-Type" = some "application/json" ∧
      r.body = BodyM.jsonBody
        [("error", "Proxy Error"), ("message", "Failed to connect to target server"),
         ("target", t), ("details", msg)] := by
  refine ⟨proxyErrorResponse t msg, ?_, rfl, rfl, rfl⟩
  simp only [handler, ht, if_neg hte, htb, hu, hf]

/-- C6 witness: a concrete failing fetch yields the 502 shape. -/
theorem c6_fetch_failure_witness :
    ∃ r, handler ⟨some "https://up.example", none, none⟩
        ⟨"GET", "https://proxy.example/a", [], none⟩ "1.2.3.4"
        (fun _ _ _ _ => Except.error "getaddrinfo ENOTFOUND up.example")
      = some r ∧ r.status = 502 ∧
      hget r.headers "Content-Type" = some "application/json" ∧
      r.body = BodyM.jsonBody
        [("error", "Proxy Error"), ("message", "Failed to connect to target server"),
         ("target", "https://up.example"),
         ("details", "getaddrinfo ENOTFOUND up.example")] :=
  c6_fetch_failure ⟨some "https://up.example", none, none⟩
    ⟨"GET", "https://proxy.example/a", [], none⟩ "1.2.3.4"
    (fun _ _ _ _ => Except.error "getaddrinfo ENOTFOUND up.example")
    "https://up.example" "getaddrinfo ENOTFOUND up.example"
    ⟨"https".data, "up.example".data, ['/'], []⟩
    ⟨"https".data, "proxy.example".data, "/a".data, []⟩
    rfl (by decide) (by decide) (by decide) rfl

/-- C8: on a successful upstream exchange the client response carries the
upstream status code unchanged and the upstream body by reference, byte
for byte, whatever the body is. -/
theorem c8_passthrough (env : Env) (req : Request) (ip : String) (f : FetchOracle)
    (t : String) (tb u : URLRec) (resp : UpstreamResponse)
    (ces : List (String × String))
    (ht : env.TARGET_URL = some t) (hte : t ≠ "")
    (htb : parseURL t = some tb) (hu : parseURL req.url = some u)
    (hf : f (targetRequestURL u tb) req.method (outboundHeaders env req ip u tb) req.body
        = .ok resp)
    (hces : resolvedCustomEntries (envOr env.CUSTOM_HEADERS "\x7b\x7d") = some ces) :
    ∃ r, handler env req ip f = some r ∧ r.status = resp.status ∧
      r.body = BodyM.stream resp.body :=
  ⟨_, handler_ok_eq env req ip f t tb u resp ces ht hte htb hu hf hces, rfl, rfl⟩

/-- C8 witness: a concrete successful exchange with a multi-byte body. -/
theorem c8_passthrough_witness :
    ∃ r, handler ⟨some "https://up.example", none, none⟩
        ⟨"GET", "https://proxy.example/a", [], none⟩ "1.2.3.4"
        (fun _ _ _ _ => Except.ok ⟨206, "Partial Content", [], some [0, 1, 2, 3, 255]⟩)
      = some r ∧ r.status = 206 ∧ r.body = BodyM.stream (some [0, 1, 2, 3, 255]) :=
  c8_passthrough ⟨some "https://up.example", none, none⟩
    ⟨"GET", "https://proxy.example/a", [], none⟩ "1.2.3.4"
    (fun _ _ _ _ => Except.ok ⟨206, "Partial Content", [], some [0, 1, 2, 3, 255]⟩)
    "https://up.example" ⟨"https".data, "up.example".data, ['/'], []⟩
    ⟨"https".data, "proxy.example".data, "/a".data, []⟩
    ⟨206, "Partial Content", [], some [0, 1, 2, 3, 255]⟩ []
    rfl (by decide) (by decide) (by decide) rfl (by decide)

/-- C9: the source reads `response.statusStatusText`, a property that does
not exist on `Response`, so the client response statusText is always the
default empty string and never the upstream statusText when the latter is
non-empty. -/
theorem c9_status_text (env : Env) (req : Request) (ip : String) (f : FetchOracle)
    (t : String) (tb u : URLRec) (resp : UpstreamResponse)
    (ces : List (String × String))
    (ht : env.TARGET_URL = some t) (hte : t ≠ "")
    (htb : parseURL t = some tb) (hu : parseURL req.url = some u)
    (hf : f (targetRequestURL u tb) req.method (outboundHeaders env req ip u tb) req.body
        = .ok resp)
    (hces : resolvedCustomEntries (envOr env.CUSTOM_HEADERS "\x7b\x7d") = some ces) :
    ∃ r, handler env req ip f = some r ∧ r.statusText = "" ∧
      (resp.statusText ≠ "" → r.statusText ≠ resp.statusText) :=
  ⟨_, handler_ok_eq env req ip f t tb u resp ces ht hte htb hu hf hces, rfl,
    fun hne hcontra => hne hcontra.symm⟩

/-- C9 witness: a concrete upstream statusText `OK` is not propagated. -/
theorem c9_status_text_witness :
    ∃ r, handler ⟨some "https://up.example", none, none⟩
        ⟨"GET", "https://proxy.example/a", [], none⟩ "1.2.3.4"
        (fun _ _ _ _ => Except.ok ⟨200, "OK", [], none⟩)
      = some r ∧ r.statusText = "" ∧ r.statusText ≠ "OK" := by
  obtain ⟨r, hr, he, hne⟩ := c9_status_text ⟨some "https://up.example", none, none⟩
    ⟨"GET", "https://proxy.example/a", [], none⟩ "1.2.3.4"
    (fun _ _ _ _ => Except.ok ⟨200, "OK", [], none⟩)
    "https://up.example" ⟨"https".data, "up.example".data, ['/'], []⟩
    ⟨"https".data, "proxy.example".data, "/a".data, []⟩
    ⟨200, "OK", [], none⟩ []
    rfl (by decide) (by decide) (by decide) rfl (by decide)
  exact ⟨r, hr, he, hne (by decide)⟩

/-- C5: the outbound headers passed to `fetch` carry `Host` equal to the
host of the parsed `TARGET_URL`, and `X-Forwarded-For`, `X-Forwarded-Proto`
and `X-Forwarded-Host` set to the client IP, the inbound scheme and the
inbound host, whatever the inbound headers contained; when inbound and
target host differ, `Host` is therefore never the inbound host. -/
theorem c5_forwarding_headers (env : Env) (req : Request) (ip : String) (u tb : URLRec) :
    hget (outboundHeaders env req ip u tb) "Host" = some (String.mk tb.host) ∧
    hget (outboundHeaders env req ip u tb) "X-Forwarded-For" = some ip ∧
    hget (outboundHeaders env req ip u tb) "X-Forwarded-Proto" = some (protoHeaderValue u) ∧
    hget (outboundHeaders env req ip u tb) "X-Forwarded-Host" = some (String.mk u.host) ∧
    (String.mk u.host ≠ String.mk tb.host →
      hget (outboundHeaders env req ip u tb) "Host" ≠ some (String.mk u.host)) := by
  have e1 : lowerS "X-Forwarded-For" ≠ lowerS "Host" := by decide
  have e2 : lowerS "X-Forwarded-For" ≠ lowerS "X-Forwarded-Host" := by decide
  have e3 : lowerS "X-Forwarded-For" ≠ lowerS "X-Forwarded-Proto" := by decide
  have e4 : lowerS "X-Forwarded-Proto" ≠ lowerS "Host" := by decide
  have e5 : lowerS "X-Forwarded-Proto" ≠ lowerS "X-Forwarded-Host" := by decide
  have e6 : lowerS "X-Forwarded-Host" ≠ lowerS "Host" := by decide
  have hH : hget (outboundHeaders env req ip u tb) "Host" = some (String.mk tb.host) := by
    rw [outboundHeaders, buildRequestHeaders, hget_hset, if_pos rfl]
  refine ⟨hH, ?_, ?_, ?_, ?_⟩
  · rw [outboundHeaders, buildRequestHeaders, hget_hset, if_neg e1, hget_hset, if_neg e2,
      hget_hset, if_neg e3, hget_hset, if_pos rfl]
  · rw [outboundHeaders, buildRequestHeaders, hget_hset, if_neg e4, hget_hset, if_neg e5,
      hget_hset, if_pos rfl]
  · rw [outboundHeaders, buildRequestHeaders, hget_hset, if_neg e6, hget_hset, if_pos rfl]
  · intro hne hcontra
    rw [hH] at hcontra
    exact hne (Option.some.inj hcontra).symm

/-- C5 witness: a concrete inbound request whose own `Host` header is the
proxy host still reaches the upstream with the target host. -/
theorem c5_forwarding_headers_witness :
    hget (outboundHeaders ⟨some "https://up.example:8096", none, none⟩
        ⟨"GET", "https://proxy.example/a",
          [("Host", "proxy.example"), ("X-Forwarded-For", "9.9.9.9")], none⟩
        "1.2.3.4" ⟨"https".data, "proxy.example".data, "/a".data, []⟩
        ⟨"http".data, "up.example:8096".data, ['/'], []⟩) "Host"
      = some "up.example:8096" ∧
    hget (outboundHeaders ⟨some "https://up.example:8096", none, none⟩
        ⟨"GET", "https://proxy.example/a",
          [("Host", "proxy.example"), ("X-Forwarded-For", "9.9.9.9")], none⟩
        "1.2.3.4" ⟨"https".data, "proxy.example".data, "/a".data, []⟩
        ⟨"http".data, "up.example:8096".data, ['/'], []⟩) "X-Forwarded-For"
      = some "1.2.3.4" ∧
    hget (outboundHeaders ⟨some "https://up.example:8096", none, none⟩
        ⟨"GET", "https://proxy.example/a",
          [("Host", "proxy.example"), ("X-Forwarded-For", "9.9.9.9")], none⟩
        "1.2.3.4" ⟨"https".data, "proxy.example".data, "/a".data, []⟩
        ⟨"http".data, "up.example:8096".data, ['/'], []⟩) "Host"
      ≠ some "proxy.example" := by
  obtain ⟨h1, h2, h3, h4, h5⟩ := c5_forwarding_headers
    ⟨some "https://up.example:8096", none, none⟩
    ⟨"GET", "https://proxy.example/a",
      [("Host", "proxy.example"), ("X-Forwarded-For", "9.9.9.9")], none⟩
    "1.2.3.4" ⟨"https".data, "proxy.example".data, "/a".data, []⟩
    ⟨"http".data, "up.example:8096".data, ['/'], []⟩
  exact ⟨h1, h2, h5 (by decide)⟩

/-- C4: apart from the four synthesized forwarding headers, an inbound
header reaches the upstream exactly when its lower-cased name is in the
resolved allow-list with a non-empty value, or its lower-cased name starts
with `x-`; in both cases the inbound value is copied unchanged, and every
other inbound header is dropped. -/
theorem c4_request_filter (reqHeaders : HeadersL) (allowedEnv : String)
    (ip proto host targetHost : String) (k : String)
    (hk1 : lowerS k ≠ lowerS "Host")
    (hk2 : lowerS k ≠ lowerS "X-Forwarded-For")
    (hk3 : lowerS k ≠ lowerS "X-Forwarded-Proto")
    (hk4 : lowerS k ≠ lowerS "X-Forwarded-Host") :
    hget (buildRequestHeaders reqHeaders (getAllowedRequestHeaders allowedEnv)
        ip proto host targetHost) k
      = if ((getAllowedRequestHeaders allowedEnv).any fun n => lowerS n == lowerS k)
           && nonemptyAt reqHeaders k
        then hget reqHeaders k
        else if startsWithS (lowerS k) "x-" then hget reqHeaders k else none := by
  rw [buildRequestHeaders, hget_hset, if_neg hk1, hget_hset, if_neg hk4,
    hget_hset, if_neg hk3, hget_hset, if_neg hk2, copyX_get, copyIfNonempty_get]
  by_cases hcond : (((getAllowedRequestHeaders allowedEnv).any fun n => lowerS n == lowerS k)
      && nonemptyAt reqHeaders k) = true
  · rw [if_pos hcond, if_pos hcond]
    have hne : nonemptyAt reqHeaders k = true := (Bool.and_eq_true_iff.mp hcond).2
    rcases hv : hget reqHeaders k with _ | v
    · rw [nonemptyAt, hv] at hne
      exact Bool.noConfusion hne
    · rfl
  · rw [if_neg hcond, if_neg hcond]
    rfl

/-- C4 witness: with the default allow-list, `Authorization` is forwarded
unchanged, `X-Custom-Trace` is forwarded despite not being allow-listed,
and `Cookie` is dropped. -/
theorem c4_request_filter_witness :
    hget (buildRequestHeaders
        [("Authorization", "Bearer x"), ("X-Custom-Trace", "123"), ("Cookie", "a=b")]
        (getAllowedRequestHeaders "") "1.2.3.4" "https" "proxy.example" "up.example")
        "Authorization" = some "Bearer x" ∧
    hget (buildRequestHeaders
        [("Authorization", "Bearer x"), ("X-Custom-Trace", "123"), ("Cookie", "a=b")]
        (getAllowedRequestHeaders "") "1.2.3.4" "https" "proxy.example" "up.example")
        "X-Custom-Trace" = some "123" ∧
    hget (buildRequestHeaders
        [("Authorization", "Bearer x"), ("X-Custom-Trace", "123"), ("Cookie", "a=b")]
        (getAllowedRequestHeaders "") "1.2.3.4" "https" "proxy.example" "up.example")
        "Cookie" = none := by
  refine ⟨?_, ?_, ?_⟩
  · rw [c4_request_filter _ _ _ _ _ _ "Authorization" (by decide) (by decide) (by decide)
      (by decide)]
    decide
  · rw [c4_request_filter _ _ _ _ _ _ "X-Custom-Trace" (by decide) (by decide) (by decide)
      (by decide)]
    decide
  · rw [c4_request_filter _ _ _ _ _ _ "Cookie" (by decide) (by decide) (by decide)
      (by decide)]
    decide

theorem corsDefaults_get_some (h : HeadersL) (k v : String) (hv : hget h k = some v) :
    hget (corsDefaults h) k = some v := by
  by_cases h1 : lowerS k = lowerS "Access-Control-Allow-Origin"
  · rw [hget_congr _ h1, corsDefaults_get_origin, ← hget_congr h h1, hv]
  · by_cases h2 : lowerS k = lowerS "Access-Control-Allow-Methods"
    · rw [hget_congr _ h2, corsDefaults_get_methods, ← hget_congr h h2, hv]
    · by_cases h3 : lowerS k = lowerS "Access-Control-Allow-Headers"
      · rw [hget_congr _ h3, corsDefaults_get_hdrs, ← hget_congr h h3, hv]
      · rw [corsDefaults_get_of_ne h k h1 h2 h3, hv]

theorem std_any_eq_false_of_x (k : String) (hx : startsWithS (lowerS k) "x-" = true) :
    (DEFAULT_RESPONSE_HEADERS.any fun n => lowerS n == lowerS k) = false := by
  have hk : ∀ n : String, startsWithS (lowerS n) "x-" = false →
      (lowerS n == lowerS k) = false := by
    intro n hn
    by_cases he : lowerS n = lowerS k
    · rw [he, hx] at hn; exact Bool.noConfusion hn
    · exact beq_eq_false_iff_ne.mpr he
  simp only [DEFAULT_RESPONSE_HEADERS, List.any_cons, List.any_nil,
    hk "content-type" (by decide), hk "content-length" (by decide),
    hk "content-range" (by decide), hk "accept-ranges" (by decide),
    hk "cache-control" (by decide), hk "etag" (by decide),
    hk "last-modified" (by decide), hk "location" (by decide),
    Bool.or_self, Bool.or_false]

/-- C3 counterexample: an upstream response carrying `content-type` with
an empty value.  The name is in the fixed standard set and present on the
upstream response, yet it is not copied, because the source guards the
copy with a truthiness check that rejects the empty string. -/
theorem c3_response_precedence_cex :
    hget [("content-type", "")] "content-type" = some "" ∧
    hget (buildResponseHeaders [("content-type", "")] []) "content-type" = none := by
  decide

/-- C3 amended: client response headers are built with this precedence:
standard names are copied from the upstream when present with a non-empty
value; `x-` names are copied when not already set; custom entries are set
unconditionally, overwriting the earlier steps (the last entry of a name
winning); each CORS default is set only when the name is still absent;
every other name is absent. -/
theorem c3_response_precedence (upstream : HeadersL) (custom : List (String × String))
    (k : String) :
    (∀ v, hgetLast custom k = some v →
      hget (buildResponseHeaders upstream custom) k = some v) ∧
    (hgetLast custom k = none →
      (DEFAULT_RESPONSE_HEADERS.any fun n => lowerS n == lowerS k) = true →
      ∀ v, hget upstream k = some v → v ≠ "" →
        hget (buildResponseHeaders upstream custom) k = some v) ∧
    (hgetLast custom k = none → startsWithS (lowerS k) "x-" = true →
      ∀ v, hget upstream k = some v →
        hget (buildResponseHeaders upstream custom) k = some v) ∧
    (hgetLast custom k = none → lowerS k = lowerS "Access-Control-Allow-Origin" →
      hget (buildResponseHeaders upstream custom) k = some "*") ∧
    (hgetLast custom k = none → lowerS k = lowerS "Access-Control-Allow-Methods" →
      hget (buildResponseHeaders upstream custom) k = some CORS_METHODS_VALUE) ∧
    (hgetLast custom k = none → lowerS k = lowerS "Access-Control-Allow-Headers" →
      hget (buildResponseHeaders upstream custom) k = some CORS_HEADERS_VALUE) ∧
    (hgetLast custom k = none →
      ¬((DEFAULT_RESPONSE_HEADERS.any fun n => lowerS n == lowerS k)
          && nonemptyAt upstream k) = true →
      ¬(startsWithS (lowerS k) "x-" && (hget upstream k).isSome) = true →
      lowerS k ≠ lowerS "Access-Control-Allow-Origin" →
      lowerS k ≠ lowerS "Access-Control-Allow-Methods" →
      lowerS k ≠ lowerS "Access-Control-Allow-Headers" →
      hget (buildResponseHeaders upstream custom) k = none) := by
  refine ⟨?_, ?_, ?_, ?_, ?_, ?_, ?_⟩
  · intro v hlast
    rw [buildResponseHeaders]
    apply corsDefaults_get_some
    simp only [setAll_get, hlast]
  · intro hlast hmem v hv hne
    rw [buildResponseHeaders]
    apply corsDefaults_get_some
    simp only [setAll_get, hlast]
    rw [copyX_get]
    have hA : hget (copyIfNonempty upstream DEFAULT_RESPONSE_HEADERS []) k = some v := by
      have hnonempty : nonemptyAt upstream k = true := by
        rw [nonemptyAt, hv]
        exact decide_eq_true hne
      rw [copyIfNonempty_get, if_pos (by rw [hmem, hnonempty]; rfl)]
      exact hv
    rw [hA]
  · intro hlast hx v hv
    rw [buildResponseHeaders]
    apply corsDefaults_get_some
    simp only [setAll_get, hlast]
    rw [copyX_get]
    have hA : hget (copyIfNonempty upstream DEFAULT_RESPONSE_HEADERS []) k = none := by
      rw [copyIfNonempty_get,
        if_neg (by rw [std_any_eq_false_of_x k hx, Bool.false_and]; exact Bool.false_ne_true)]
      rfl
    rw [hA, if_pos hx, hv]
  · intro hlast hkey
    have hfun : (fun n => lowerS n == lowerS k)
        = (fun n => lowerS n == lowerS "Access-Control-Allow-Origin") := by
      funext n; rw [hkey]
    have hany : (DEFAULT_RESPONSE_HEADERS.any fun n => lowerS n == lowerS k) = false := by
      rw [hfun]; decide
    have hx : startsWithS (lowerS k) "x-" = false := by rw [hkey]; decide
    rw [buildResponseHeaders, hget_congr _ hkey, corsDefaults_get_origin]
    have hpre : hget (setAllHeaders custom
        (copyX upstream (copyIfNonempty upstream DEFAULT_RESPONSE_HEADERS [])))
        "Access-Control-Allow-Origin" = none := by
      rw [← hget_congr _ hkey]
      simp only [setAll_get, hlast]
      rw [copyX_get]
      have hA : hget (copyIfNonempty upstream DEFAULT_RESPONSE_HEADERS []) k = none := by
        rw [copyIfNonempty_get,
          if_neg (by rw [hany, Bool.false_and]; exact Bool.false_ne_true)]
        rfl
      rw [hA, if_neg (by rw [hx]; exact Bool.false_ne_true)]
    rw [hpre]
  · intro hlast hkey
    have hfun : (fun n => lowerS n == lowerS k)
        = (fun n => lowerS n == lowerS "Access-Control-Allow-Methods") := by
      funext n; rw [hkey]
    have hany : (DEFAULT_RESPONSE_HEADERS.any fun n => lowerS n == lowerS k) = false := by
      rw [hfun]; decide
    have hx : startsWithS (lowerS k) "x-" = false := by rw [hkey]; decide
    rw [buildResponseHeaders, hget_congr _ hkey, corsDefaults_get_methods]
    have hpre : hget (setAllHeaders custom
        (copyX upstream (copyIfNonempty upstream DEFAULT_RESPONSE_HEADERS [])))
        "Access-Control-Allow-Methods" = none := by
      rw [← hget_congr _ hkey]
      simp only [setAll_get, hlast]
      rw [copyX_get]
      have hA : hget (copyIfNonempty upstream DEFAULT_RESPONSE_HEADERS []) k = none := by
        rw [copyIfNonempty_get,
          if_neg (by rw [hany, Bool.false_and]; exact Bool.false_ne_true)]
        rfl
      rw [hA, if_neg (by rw [hx]; exact Bool.false_ne_true)]
    rw [hpre]
  · intro hlast hkey
    have hfun : (fun n => lowerS n == lowerS k)
        = (fun n => lowerS n == lowerS "Access-Control-Allow-Headers") := by
      funext n; rw [hkey]
    have hany : (DEFAULT_RESPONSE_HEADERS.any fun n => lowerS n == lowerS k) = false := by
      rw [hfun]; decide
    have hx : startsWithS (lowerS k) "x-" = false := by rw [hkey]; decide
    rw [buildResponseHeaders, hget_congr _ hkey, corsDefaults_get_hdrs]
    have hpre : hget (setAllHeaders custom
        (copyX upstream (copyIfNonempty upstream DEFAULT_RESPONSE_HEADERS [])))
        "Access-Control-Allow-Headers" = none := by
      rw [← hget_congr _ hkey]
      simp only [setAll_get, hlast]
      rw [copyX_get]
      have hA : hget (copyIfNonempty upstream DEFAULT_RESPONSE_HEADERS []) k = none := by
        rw [copyIfNonempty_get,
          if_neg (by rw [hany, Bool.false_and]; exact Bool.false_ne_true)]
        rfl
      rw [hA, if_neg (by rw [hx]; exact Bool.false_ne_true)]
    rw [hpre]
  · intro hlast hnc hnx hne1 hne2 hne3
    rw [buildResponseHeaders, corsDefaults_get_of_ne _ _ hne1 hne2 hne3]
    simp only [setAll_get, hlast]
    rw [copyX_get]
    have hA : hget (copyIfNonempty upstream DEFAULT_RESPONSE_HEADERS []) k = none := by
      rw [copyIfNonempty_get, if_neg hnc]
      rfl
    rw [hA]
    by_cases hx : startsWithS (lowerS k) "x-" = true
    · rw [if_pos hx]
      rcases hv : hget upstream k with _ | v
      · rfl
      · exfalso
        apply hnx
        rw [hx, hv]
        rfl
    · rw [if_neg hx]

/-- C3 witness: with a concrete upstream response and custom headers, the
custom entry overrides, the standard header passes through, and a CORS
default is filled in. -/
theorem c3_response_precedence_witness :
    hget (buildResponseHeaders
        [("content-type", "text/html"), ("X-Foo", "up")]
        [("X-Foo", "bar")]) "X-Foo" = some "bar" ∧
    hget (buildResponseHeaders
        [("content-type", "text/html"), ("X-Foo", "up")]
        [("X-Foo", "bar")]) "content-type" = some "text/html" ∧
    hget (buildResponseHeaders
        [("content-type", "text/html"), ("X-Foo", "up")]
        [("X-Foo", "bar")]) "Access-Control-Allow-Origin" = some "*" := by
  refine ⟨?_, ?_, ?_⟩
  · exact (c3_response_precedence [("content-type", "text/html"), ("X-Foo", "up")]
      [("X-Foo", "bar")] "X-Foo").1 "bar" (by decide)
  · exact ((c3_response_precedence [("content-type", "text/html"), ("X-Foo", "up")]
      [("X-Foo", "bar")] "content-type").2.1 (by decide) (by decide) "text/html"
      (by decide) (by decide))
  · exact ((c3_response_precedence [("content-type", "text/html"), ("X-Foo", "up")]
      [("X-Foo", "bar")] "Access-Control-Allow-Origin").2.2.2.1 (by decide) (by decide))

theorem rewriteLocation_get (resp : UpstreamResponse) (tb u : URLRec) (rh : HeadersL)
    (hst1 : 300 ≤ resp.status) (hst2 : resp.status < 400) (loc : String)
    (hloc : hget resp.headers "location" = some loc) (hlne : loc ≠ "") :
    (∀ lu, parseURL loc = some lu →
      (lu.origin = tb.origin →
        hget (rewriteLocation resp tb u rh) "Location"
          = some (String.mk (u.origin ++ lu.pathname ++ lu.search))) ∧
      (lu.origin ≠ tb.origin →
        hget (rewriteLocation resp tb u rh) "Location" = some loc)) ∧
    (parseURL loc = none →
      hget (rewriteLocation resp tb u rh) "Location" = some loc) := by
  constructor
  · intro lu hlu
    constructor
    · intro horigin
      rw [rewriteLocation, if_pos ⟨hst1, hst2⟩, hloc]
      simp only [if_neg hlne, hlu, if_pos horigin]
      rw [hget_hset, if_pos rfl]
    · intro horigin
      rw [rewriteLocation, if_pos ⟨hst1, hst2⟩, hloc]
      simp only [if_neg hlne, hlu, if_neg horigin]
      rw [hget_hset, if_pos rfl]
  · intro hlu
    rw [rewriteLocation, if_pos ⟨hst1, hst2⟩, hloc]
    simp only [if_neg hlne, hlu]
    rw [hget_hset, if_pos rfl]

/-- C2 counterexample: an upstream 301 carrying a `Location` header whose
value is the empty string.  The empty value does not parse as an absolute
URL, so the claim as stated requires it to be passed through unchanged,
but the source's truthiness checks skip it entirely and the client
response carries no `Location` at all. -/
theorem c2_redirect_cex :
    hget [("location", "")] "location" = some "" ∧
    (handler ⟨some "https://up.example", none, none⟩
        ⟨"GET", "https://proxy.example/a", [], none⟩ "1.2.3.4"
        (fun _ _ _ _ => Except.ok ⟨301, "", [("location", "")], none⟩)).map
        (fun r => hget r.headers "Location")
      = some none := by
  decide

/-- C2 amended: for an upstream response with status in `[300, 400)`
carrying a `Location` header with a non-empty value: a parse as an
absolute URL with the target origin is rewritten to the proxy origin
followed by path and query, a parse with a different origin is passed
through unchanged, and a failed parse (relative path) is passed through
unchanged; an empty `Location` value is dropped.  The step has no error
outcome. -/
theorem c2_redirect_amended (env : Env) (req : Request) (ip : String) (f : FetchOracle)
    (t loc : String) (tb u : URLRec) (resp : UpstreamResponse)
    (ces : List (String × String))
    (ht : env.TARGET_URL = some t) (hte : t ≠ "")
    (htb : parseURL t = some tb) (hu : parseURL req.url = some u)
    (hf : f (targetRequestURL u tb) req.method (outboundHeaders env req ip u tb) req.body
        = .ok resp)
    (hces : resolvedCustomEntries (envOr env.CUSTOM_HEADERS "\x7b\x7d") = some ces)
    (hst1 : 300 ≤ resp.status) (hst2 : resp.status < 400)
    (hloc : hget resp.headers "location" = some loc) (hlne : loc ≠ "") :
    ∃ r, handler env req ip f = some r ∧
      (∀ lu, parseURL loc = some lu →
        (lu.origin = tb.origin →
          hget r.headers "Location"
            = some (String.mk (u.origin ++ lu.pathname ++ lu.search))) ∧
        (lu.origin ≠ tb.origin → hget r.headers "Location" = some loc)) ∧
      (parseURL loc = none → hget r.headers "Location" = some loc) :=
  ⟨_, handler_ok_eq env req ip f t tb u resp ces ht hte htb hu hf hces,
    rewriteLocation_get resp tb u (buildResponseHeaders resp.headers ces)
      hst1 hst2 loc hloc hlne⟩

/-- C2 witness: a same-origin redirect is rewritten to the proxy origin, a
cross-origin one passes through, and a relative one passes through. -/
theorem c2_redirect_amended_witness :
    (∃ r, handler ⟨some "https://up.example", none, none⟩
        ⟨"GET", "https://proxy.example/a", [], none⟩ "1.2.3.4"
        (fun _ _ _ _ =>
          Except.ok ⟨301, "", [("location", "https://up.example/next?p=2")], none⟩)
      = some r ∧ hget r.headers "Location" = some "https://proxy.example/next?p=2") ∧
    (∃ r, handler ⟨some "https://up.example", none, none⟩
        ⟨"GET", "https://proxy.example/a", [], none⟩ "1.2.3.4"
        (fun _ _ _ _ =>
          Except.ok ⟨302, "", [("location", "https://other.example/x")], none⟩)
      = some r ∧ hget r.headers "Location" = some "https://other.example/x") ∧
    (∃ r, handler ⟨some "https://up.example", none, none⟩
        ⟨"GET", "https://proxy.example/a", [], none⟩ "1.2.3.4"
        (fun _ _ _ _ => Except.ok ⟨302, "", [("location", "/rel/x")], none⟩)
      = some r ∧ hget r.headers "Location" = some "/rel/x") := by
  refine ⟨?_, ?_, ?_⟩
  · obtain ⟨r, hr, hcase, -⟩ := c2_redirect_amended
      ⟨some "https://up.example", none, none⟩
      ⟨"GET", "https://proxy.example/a", [], none⟩ "1.2.3.4"
      (fun _ _ _ _ =>
        Except.ok ⟨301, "", [("location", "https://up.example/next?p=2")], none⟩)
      "https://up.example" "https://up.example/next?p=2"
      ⟨"https".data, "up.example".data, ['/'], []⟩
      ⟨"https".data, "proxy.example".data, "/a".data, []⟩
      ⟨301, "", [("location", "https://up.example/next?p=2")], none⟩ []
      rfl (by decide) (by decide) (by decide) rfl (by decide)
      (by decide) (by decide) (by decide) (by decide)
    refine ⟨r, hr, ?_⟩
    have := (hcase ⟨"https".data, "up.example".data, "/next".data, "?p=2".data⟩
      (by decide)).1 (by decide)
    rw [this]
    decide
  · obtain ⟨r, hr, hcase, -⟩ := c2_redirect_amended
      ⟨some "https://up.example", none, none⟩
      ⟨"GET", "https://proxy.example/a", [], none⟩ "1.2.3.4"
      (fun _ _ _ _ =>
        Except.ok ⟨302, "", [("location", "https://other.example/x")], none⟩)
      "https://up.example" "https://other.example/x"
      ⟨"https".data, "up.example".data, ['/'], []⟩
      ⟨"https".data, "proxy.example".data, "/a".data, []⟩
      ⟨302, "", [("location", "https://other.example/x")], none⟩ []
      rfl (by decide) (by decide) (by decide) rfl (by decide)
      (by decide) (by decide) (by decide) (by decide)
    exact ⟨r, hr, (hcase ⟨"https".data, "other.example".data, "/x".data, []⟩
      (by decide)).2 (by decide)⟩
  · obtain ⟨r, hr, -, hcase⟩ := c2_redirect_amended
      ⟨some "https://up.example", none, none⟩
      ⟨"GET", "https://proxy.example/a", [], none⟩ "1.2.3.4"
      (fun _ _ _ _ => Except.ok ⟨302, "", [("location", "/rel/x")], none⟩)
      "https://up.example" "/rel/x"
      ⟨"https".data, "up.example".data, ['/'], []⟩
      ⟨"https".data, "proxy.example".data, "/a".data, []⟩
      ⟨302, "", [("location", "/rel/x")], none⟩ []
      rfl (by decide) (by decide) (by decide) rfl (by decide)
      (by decide) (by decide) (by decide) (by decide)
    exact ⟨r, hr, hcase (by decide)⟩

/-- C7: the claim that every non-object `CUSTOM_HEADERS` value resolves to
the empty mapping fails on the code.  `JSON.parse` accepts any JSON value;
an array produces index-keyed entries that are applied as headers, and the
value `null` makes `Object.entries` throw at request time, so the request
fails.  The evaluations below exhibit both divergences, the last one on
the full handler. -/
theorem c7_custom_headers_bug :
    resolvedCustomEntries "null" = none ∧
    resolvedCustomEntries "[\"a\"]" = some [("0", "a")] ∧
    handler ⟨some "https://up.example", none, some "null"⟩
        ⟨"GET", "https://proxy.example/a", [], none⟩ "1.2.3.4"
        (fun _ _ _ _ => Except.ok ⟨200, "", [], none⟩)
      = none := by
  decide

/-- C10 counterexample: an inbound pathname beginning with `//` is treated
by `new URL` as a scheme-relative reference, so the upstream request host
is taken from the pathname, not from `TARGET_URL`. -/
theorem c10_target_url_cex :
    parseURL "https://up.example" = some ⟨"https".data, "up.example".data, ['/'], []⟩ ∧
    (parseURL "https://proxy.example//evil.example/steal").map URLRec.pathname
      = some "//evil.example/steal".data ∧
    (parseURL "https://proxy.example//evil.example/steal").map
        (fun u => targetRequestURL u ⟨"https".data, "up.example".data, ['/'], []⟩)
      = some ⟨"https".data, "evil.example".data, "/steal".data, []⟩ ∧
    "evil.example".data ≠ "up.example".data := by
  decide

/-- C10 amended: for every parsed inbound URL whose pathname does not
begin with `//`, the upstream request URL is the scheme and host of the
parsed `TARGET_URL` with the inbound pathname and query, so any path
component of `TARGET_URL` is discarded; a pathname beginning with `//` is
instead treated as scheme-relative and supplies the host itself. -/
theorem c10_target_url_amended (s t : String) (u tb : URLRec)
    (hu : parseURL s = some u) (htb : parseURL t = some tb)
    (htake : u.pathname.take 2 ≠ ['/', '/']) :
    targetRequestURL u tb = ⟨tb.scheme, tb.host, u.pathname, u.search⟩ :=
  targetRequestURL_of_parse s u tb hu htake

/-- C10 witness: a target URL with its own path component `/base` is
reduced to its origin when joined with the inbound path and query. -/
theorem c10_target_url_amended_witness :
    targetRequestURL ⟨"https".data, "proxy.example".data, "/foo".data, "?q=1".data⟩
        ⟨"https".data, "up.example".data, "/base".data, []⟩
      = ⟨"https".data, "up.example".data, "/foo".data, "?q=1".data⟩ :=
  c10_target_url_amended "https://proxy.example/foo?q=1" "https://up.example/base"
    ⟨"https".data, "proxy.example".data, "/foo".data, "?q=1".data⟩
    ⟨"https".data, "up.example".data, "/base".data, []⟩
    (by decide) (by decide) (by decide)

end NetlifyProxy
